import Mathlib

/-!
Shallow embedding of the batching utilities of the `torchness` repository:
`src/torchness/batcher.py` (namespace `TB`) and
`src/torchness/comoneural/batcher.py` (namespace `CB`).

Python dicts {str: array} are modelled as association lists `Dict β`,
arrays as Lean lists, and the numpy `Generator` object as a small
deterministic state (`Rng`).  The numpy sampling routines used by the code
(`rng.choice(a, size, replace=False)`, `rng.shuffle`, `rng.permutation`)
are modelled by executable functions with the properties numpy documents
for them: `shuffle`/`permutation` return a permutation of their input and
`choice` without replacement returns `size` distinct indices below `a`
(it signals an error when `size > a`).  Code paths where the Python
program raises `BatcherException` are modelled with `Except Err`
(`Err.batcherException`), other runtime failures with `Err.crash` /
`Option.none`.
-/

namespace Torchness

/-- A Python dict with string keys, modelled as an association list
(first binding of a key wins on lookup, as for a Python dict there are
no duplicate keys). -/
abbrev Dict (β : Type) := List (String × β)

/-- `list(d.keys())`. -/
def dictKeys {β : Type} (d : Dict β) : List String := d.map Prod.fst

/-- Lookup of a key in a dict: `d[k]` returning `none` on a missing key. -/
def dFind {β : Type} (d : Dict β) (k : String) : Option β :=
  (d.find? (fun p => p.1 == k)).map Prod.snd

/-- `d[k]` for a dict of arrays, defaulting to the empty array on a
missing key (the Python code would raise `KeyError` there; no claim
exercises that path). -/
def dGet {α : Type} (d : Dict (List α)) (k : String) : List α :=
  (dFind d k).getD []

/-- Python slice `x[a:b]` on an array. -/
def pySlice {α : Type} (l : List α) (a b : Nat) : List α :=
  (l.take b).drop a

/-- numpy fancy indexing `x[indexes]`: one sample per index.  Out of range
indices (which numpy rejects) read `default`; every theorem below keeps
the indices in range. -/
def fancyIndex {α : Type} [Inhabited α] (l : List α) (ixs : List Nat) : List α :=
  ixs.map (fun i => l.getD i default)

/-- Lexicographic comparison of code-point sequences, matching Python's
string ordering. -/
def charListLe : List Char → List Char → Bool
  | [], _ => true
  | _ :: _, [] => false
  | a :: as, b :: bs => if a < b then true else if b < a then false else charListLe as bs

def strLe (a b : String) : Bool := charListLe a.data b.data

/-- Ordered insertion of a key into a sorted key list. -/
def insertSorted (a : String) : List String → List String
  | [] => [a]
  | b :: bs => if strLe a b then a :: b :: bs else b :: insertSorted a bs

/-- `sorted(list(keys))` (insertion sort; dict keys are distinct, so any
sort agrees with Python's). -/
def sortKeys : List String → List String
  | [] => []
  | a :: as => insertSorted a (sortKeys as)

/-- State of a numpy `Generator` (deterministic stand-in). -/
structure Rng where
  state : Nat
deriving DecidableEq, Repr

/-- `np.random.default_rng(seed)`. -/
def default_rng (seed : Nat) : Rng := ⟨seed⟩

/-- One step of the stand-in generator (a linear congruential step). -/
def rngNext (r : Rng) : Nat × Rng :=
  let s := (r.state * 1103515245 + 12345) % 2147483648
  (s, ⟨s⟩)

/-- Fisher-Yates extraction: repeatedly take the element at a
pseudo-random position.  `fuel` bounds the recursion; `rngShuffle`
supplies `fuel = l.length`, which is exact. -/
def shuffleGo (fuel : Nat) (r : Rng) (l : List Nat) : List Nat × Rng :=
  match fuel, l with
  | 0, l => (l, r)
  | _, [] => ([], r)
  | fuel + 1, x :: xs =>
    let p := rngNext r
    let i := p.1 % (x :: xs).length
    let q := shuffleGo fuel p.2 ((x :: xs).eraseIdx i)
    ((x :: xs).getD i 0 :: q.1, q.2)

/-- `rng.shuffle(arr)` (returning the shuffled array and the advanced
generator, since the model is pure). -/
def rngShuffle (r : Rng) (l : List Nat) : List Nat × Rng :=
  shuffleGo l.length r l

/-- `rng.permutation(n)`. -/
def rngPermutation (r : Rng) (n : Nat) : List Nat × Rng :=
  rngShuffle r (List.range n)

/-- `rng.choice(a, size, replace=False)`: `size` distinct indices below
`a`; numpy raises `ValueError` when `size > a`, modelled as `none`. -/
def rngChoiceNoRep (r : Rng) (a size : Nat) : Option (List Nat × Rng) :=
  if a < size then none
  else some (((rngShuffle r (List.range a)).1.take size), (rngShuffle r (List.range a)).2)

theorem perm_getD_cons_eraseIdx (l : List Nat) (i : Nat) (h : i < l.length) :
    (l.getD i 0 :: l.eraseIdx i).Perm l := by
  have hget : l.getD i 0 = l[i] := List.getD_eq_getElem l 0 h
  rw [hget, List.eraseIdx_eq_take_drop_succ]
  have h1 : (l[i] :: (l.take i ++ l.drop (i + 1))).Perm (l.take i ++ l[i] :: l.drop (i + 1)) :=
    List.perm_middle.symm
  have h2 : l.take i ++ l[i] :: l.drop (i + 1) = l := by
    rw [List.cons_getElem_drop_succ]
    exact List.take_append_drop i l
  conv_rhs => rw [← h2]
  exact h1

theorem shuffleGo_perm (fuel : Nat) (r : Rng) (l : List Nat) :
    (shuffleGo fuel r l).1.Perm l := by
  induction fuel generalizing r l with
  | zero => cases l <;> simp [shuffleGo]
  | succ fuel ih =>
    cases l with
    | nil => simp [shuffleGo]
    | cons x xs =>
      simp only [shuffleGo]
      have hlt : (rngNext r).1 % (x :: xs).length < (x :: xs).length :=
        Nat.mod_lt _ (by simp)
      exact ((ih _ _).cons _).trans (perm_getD_cons_eraseIdx _ _ hlt)

theorem rngShuffle_perm (r : Rng) (l : List Nat) : (rngShuffle r l).1.Perm l :=
  shuffleGo_perm l.length r l

theorem rngPermutation_perm (r : Rng) (n : Nat) :
    (rngPermutation r n).1.Perm (List.range n) :=
  rngShuffle_perm r (List.range n)

theorem rngShuffle_length (r : Rng) (l : List Nat) :
    (rngShuffle r l).1.length = l.length :=
  (rngShuffle_perm r l).length_eq

theorem rngChoiceNoRep_eq_some (r : Rng) (a size : Nat) (h : size ≤ a) :
    rngChoiceNoRep r a size =
      some ((rngShuffle r (List.range a)).1.take size, (rngShuffle r (List.range a)).2) := by
  simp [rngChoiceNoRep, Nat.not_lt.mpr h]

theorem rngChoiceNoRep_spec (r : Rng) (a size : Nat) (h : size ≤ a)
    (out : List Nat × Rng) (hout : rngChoiceNoRep r a size = some out) :
    out.1.length = size ∧ out.1.Nodup ∧ ∀ i ∈ out.1, i < a := by
  rw [rngChoiceNoRep_eq_some r a size h] at hout
  obtain rfl := (Option.some_injective _ hout).symm
  have hperm := rngShuffle_perm r (List.range a)
  refine ⟨?_, ?_, ?_⟩
  · simp [List.length_take, rngShuffle_length, h]
  · exact (hperm.nodup_iff.mpr (List.nodup_range a)).sublist (List.take_sublist _ _)
  · intro i hi
    have : i ∈ (rngShuffle r (List.range a)).1 := List.mem_of_mem_take hi
    simpa using hperm.mem_iff.mp this

/-- Error outcomes of the Python code: a raised `BatcherException`
(`batcher.py` line 19 / `comoneural/batcher.py` line 19) or any other
runtime error (numpy `ValueError`, `AttributeError`, ...). -/
inductive Err where
  | batcherException (msg : String)
  | crash
deriving DecidableEq, Repr

/-- One training chunk as returned by `load_data_TR_chunk()`: the data
dict plus whether its arrays are `np.ndarray` / `torch.Tensor` (the two
types for which the leftover-concatenation is supported). -/
structure Chunk (α : Type) where
  data : Dict (List α)
  isArr : Bool
deriving DecidableEq, Repr

/-- The `data_TS` constructor argument: absent/None, an unnamed chunk
`{axis: array}`, or named test-sets `{name: {axis: array}}`.  The Python
code distinguishes the two dict shapes by `type(list(d.values())[0]) is dict`. -/
inductive TSInput (α : Type) where
  | null : TSInput α
  | unnamed (d : Dict (List α)) : TSInput α
  | named (d : Dict (Dict (List α))) : TSInput α
deriving DecidableEq, Repr

def default_TS_name : String := "__TS__"

/-- `BaseBatcher.__init__` normalisation of `data_TS`: `None` stays
`None`; a truthy unnamed chunk is wrapped as `{default_TS_name: chunk}`;
a falsy (empty) dict and named test-sets are stored as given. -/
def wrapTS {α : Type} : TSInput α → Option (Dict (Dict (List α)))
  | .null => none
  | .unnamed d => if d.isEmpty then some [] else some [(default_TS_name, d)]
  | .named d => some d

/-- Mutable state of a `BaseBatcher` object (both modules share the same
fields).  The successive results of `load_data_TR_chunk()` are modelled
as a stream `loader : Nat → Chunk α` indexed by `chunk_counter`. -/
structure BState (α : Type) where
  seed_counter : Nat
  rng : Rng
  btype : String
  batch_size : Nat
  batch_size_TS_mul : Nat
  data_TR : Dict (List α)
  keys : List String
  data_TR_len : Nat
  ixmap : List Nat
  ixmap_pointer : Nat
  chunk_counter : Nat
  data_TS : Option (Dict (Dict (List α)))
  TS_batches : Dict (List (Dict (List α)))
deriving DecidableEq, Repr

/-- `split_into_batches(data, size)` while-loop body; `fuel` bounds the
loop (`split_into_batches` passes first-axis length + 1, exact for
`size ≥ 1`; for `size = 0` with non-empty data the Python loop diverges,
which no claim exercises). -/
def splitGo {α : Type} (data : Dict (List α)) (keys : List String) (size : Nat) :
    Nat → Nat → List (Dict (List α))
  | _, 0 => []
  | counter, fuel + 1 =>
    if counter * size < (dGet data (keys.headD "")).length then
      (keys.map (fun k => (k, pySlice (dGet data k) (counter * size) ((counter + 1) * size))))
        :: splitGo data keys size (counter + 1) fuel
    else []

/-- `split_into_batches` (`batcher.py` lines 24-31, identical in
`comoneural/batcher.py`). -/
def split_into_batches {α : Type} (data : Dict (List α)) (size : Nat) :
    List (Dict (List α)) :=
  splitGo data (dictKeys data) size 0 ((dGet data ((dictKeys data).headD "")).length + 1)

/-- `_get_next_chunk_and_extend_ixmap`, parameterised by the per-module
index-map dispatch `mkIx btype chunk_next_len batch_size rng` (the chain
of `if self.btype == ...` branches, the only point where the two modules
differ).  `none` models a runtime error (numpy `ValueError` from
`rng.choice`, or `_ixmap_new = None` surviving an unknown `btype`, which
a successful construction rules out). -/
def getNextChunkWith {α : Type} [Inhabited α]
    (mkIx : String → Nat → Nat → Rng → Option (List Nat × Rng))
    (loader : Nat → Chunk α) (s : BState α) : Option (BState α) :=
  let chunk_next := loader s.chunk_counter
  let keys := if s.keys.isEmpty then sortKeys (dictKeys chunk_next.data) else s.keys
  let chunk_next_len := (dGet chunk_next.data (keys.headD "")).length
  match mkIx s.btype chunk_next_len s.batch_size s.rng with
  | none => none
  | some (ixn, rng2) =>
    let ixmap_left := s.ixmap.drop s.ixmap_pointer
    let left := ixmap_left.length
    if left ≠ 0 ∧ chunk_next.isArr then
      let data2 := keys.map
        (fun k => (k, fancyIndex (dGet s.data_TR k) ixmap_left ++ dGet chunk_next.data k))
      some { s with
        keys := keys, rng := rng2,
        ixmap := List.range left ++ ixn.map (· + left), ixmap_pointer := 0,
        data_TR := data2, data_TR_len := (dGet data2 (keys.headD "")).length,
        chunk_counter := s.chunk_counter + 1 }
    else
      some { s with
        keys := keys, rng := rng2,
        ixmap := ixn, ixmap_pointer := 0,
        data_TR := chunk_next.data,
        data_TR_len := (dGet chunk_next.data (keys.headD "")).length,
        chunk_counter := s.chunk_counter + 1 }

/-- `get_batch()` (`batcher.py` lines 149-161, identical in
`comoneural/batcher.py` lines 150-162): reseed the generator from the
seed counter, bump the counter, refill the index map when the remainder
cannot satisfy the pull, deliver the next `batch_size` indices. -/
def get_batchWith {α : Type} [Inhabited α]
    (mkIx : String → Nat → Nat → Rng → Option (List Nat × Rng))
    (loader : Nat → Chunk α) (s : BState α) : Option (Dict (List α) × BState α) :=
  let s1 : BState α :=
    { s with rng := default_rng s.seed_counter, seed_counter := s.seed_counter + 1 }
  let s2? := if s1.ixmap_pointer + s1.batch_size > s1.ixmap.length
             then getNextChunkWith mkIx loader s1 else some s1
  match s2? with
  | none => none
  | some s2 =>
    let indexes := pySlice s2.ixmap s2.ixmap_pointer (s2.ixmap_pointer + s2.batch_size)
    let s3 := { s2 with ixmap_pointer := s2.ixmap_pointer + s2.batch_size }
    some (s3.keys.map (fun k => (k, fancyIndex (dGet s3.data_TR k) indexes)), s3)

/-- `get_TS_batches(name)` (`batcher.py` lines 163-180, identical in
`comoneural/batcher.py` lines 164-181): resolve the test-set name,
compute the batch partition on the first request and cache it. -/
def get_TS_batchesWith {α : Type} (s : BState α) (name? : Option String) :
    Except Err (List (Dict (List α)) × BState α) :=
  match s.data_TS with
  | none => .error .crash
  | some ts =>
    match
      (match name? with
       | none =>
         if dictKeys ts ≠ [default_TS_name]
         then Except.error (Err.batcherException "ERR: TS name must be given!")
         else Except.ok default_TS_name
       | some n => Except.ok n) with
    | .error e => .error e
    | .ok name =>
      if name ∉ dictKeys ts
      then .error (.batcherException "ERR: TS name unknown!")
      else
        match dFind s.TS_batches name with
        | some b => .ok (b, s)
        | none =>
          let b := split_into_batches ((dFind ts name).getD [])
                     (s.batch_size * s.batch_size_TS_mul)
          .ok (b, { s with TS_batches := s.TS_batches ++ [(name, b)] })

/-- `BaseBatcher.__init__`, parameterised like `getNextChunkWith`:
validate the batching type, seed the generator, load the first chunk,
store the (wrapped) test data. -/
def mkWith {α : Type} [Inhabited α]
    (mkIx : String → Nat → Nat → Rng → Option (List Nat × Rng))
    (types : List String) (loader : Nat → Chunk α) (data_TS : TSInput α)
    (batch_size batch_size_TS_mul : Nat) (btype : String) (seed : Nat) :
    Except Err (BState α) :=
  if btype ∉ types then .error (.batcherException "unknown batching_type")
  else
    let s0 : BState α := {
      seed_counter := seed, rng := default_rng seed, btype := btype,
      batch_size := batch_size, batch_size_TS_mul := batch_size_TS_mul,
      data_TR := [], keys := [], data_TR_len := 0,
      ixmap := [], ixmap_pointer := 0, chunk_counter := 0,
      data_TS := none, TS_batches := [] }
    match getNextChunkWith mkIx loader s0 with
    | none => .error .crash
    | some s1 => .ok { s1 with data_TS := wrapTS data_TS }

/-- `data_split` (`batcher.py` lines 199-224, identical in
`comoneural/batcher.py` lines 200-225).  The Python `float` split factor
is modelled as a rational; `int(d_len * split_factor)` is
`⌊d_len * split_factor⌋.toNat` (truncation and floor agree on the
non-negative products the claims are about). -/
def data_split {α : Type} [Inhabited α] (data : Dict (List α)) (split_factor : ℚ)
    (seed : Nat) : Dict (List α) × Dict (List α) :=
  let rng := default_rng seed
  let keys := dictKeys data
  let d_len := (dGet data (keys.headD "")).length
  let indices := (rngPermutation rng d_len).1
  let splitB_len := (⌊(d_len : ℚ) * split_factor⌋).toNat
  let splitA_len := d_len - splitB_len
  let indicesA := indices.take splitA_len
  let indicesB := indices.drop splitA_len
  (keys.map (fun k => (k, fancyIndex (dGet data k) indicesA)),
   keys.map (fun k => (k, fancyIndex (dGet data k) indicesB)))

namespace TB

/-- `BATCHING_TYPES` of `src/torchness/batcher.py` (lines 13-16). -/
def BATCHING_TYPES : List String := ["base", "random"]

/-- The `btype` dispatch of `_get_next_chunk_and_extend_ixmap` in
`src/torchness/batcher.py` (lines 112-119): `base` takes
`np.arange(chunk_next_len)`; `random` takes
`rng.choice(chunk_next_len, size=chunk_next_len, replace=False)`
(the batch size is not consulted). -/
def mkIxmap (btype : String) (chunk_next_len batch_size : Nat) (rng : Rng) :
    Option (List Nat × Rng) :=
  if btype = "base" then some (List.range chunk_next_len, rng)
  else if btype = "random" then rngChoiceNoRep rng chunk_next_len chunk_next_len
  else none

def getNextChunk {α : Type} [Inhabited α] (loader : Nat → Chunk α) (s : BState α) :
    Option (BState α) :=
  getNextChunkWith mkIxmap loader s

def get_batch {α : Type} [Inhabited α] (loader : Nat → Chunk α) (s : BState α) :
    Option (Dict (List α) × BState α) :=
  get_batchWith mkIxmap loader s

def mk {α : Type} [Inhabited α] (loader : Nat → Chunk α) (data_TS : TSInput α)
    (batch_size batch_size_TS_mul : Nat) (btype : String) (seed : Nat) :
    Except Err (BState α) :=
  mkWith mkIxmap BATCHING_TYPES loader data_TS batch_size batch_size_TS_mul btype seed

/-- `DataBatcher.__init__` (`batcher.py` lines 234-255): optionally split
`data_TR`, then run the base constructor with a constant chunk loader. -/
def DataBatcher_mk {α : Type} [Inhabited α] (data_TR : Dict (List α)) (isArr : Bool)
    (split_factor : ℚ) (data_TS : TSInput α)
    (batch_size batch_size_TS_mul : Nat) (btype : String) (seed : Nat) :
    Except Err (BState α) :=
  if 0 < split_factor then
    match data_TS with
    | .null =>
      let p := data_split data_TR split_factor seed
      mk (fun _ => ⟨p.1, isArr⟩) (.unnamed p.2) batch_size batch_size_TS_mul btype seed
    | _ => .error (.batcherException "cannot split data because data_TS is given")
  else
    mk (fun _ => ⟨data_TR, isArr⟩) data_TS batch_size batch_size_TS_mul btype seed

/-- The argument validation at the head of `FilesBatcher.__init__`
(`batcher.py` lines 279-281); the background-thread machinery that
follows it is not modelled. -/
def FilesBatcher_checkDataFiles (data_files : List String) : Except Err Unit :=
  if data_files.isEmpty
  then .error (.batcherException ("data_files is empty: " ++ toString data_files))
  else .ok ()

end TB

namespace CB

/-- `BATCHING_TYPES` of `src/torchness/comoneural/batcher.py` (lines 12-16). -/
def BATCHING_TYPES : List String := ["base", "random", "random_cov"]

/-- The `btype` dispatch of `_get_next_chunk_and_extend_ixmap` in
`src/torchness/comoneural/batcher.py` (lines 107-118): `base` takes
`np.arange(chunk_next_len)`; `random` takes
`rng.choice(chunk_next_len, size=batch_size, replace=False)`;
`random_cov` shuffles `np.arange(chunk_next_len)`. -/
def mkIxmap (btype : String) (chunk_next_len batch_size : Nat) (rng : Rng) :
    Option (List Nat × Rng) :=
  if btype = "base" then some (List.range chunk_next_len, rng)
  else if btype = "random" then rngChoiceNoRep rng chunk_next_len batch_size
  else if btype = "random_cov" then some (rngShuffle rng (List.range chunk_next_len))
  else none

def getNextChunk {α : Type} [Inhabited α] (loader : Nat → Chunk α) (s : BState α) :
    Option (BState α) :=
  getNextChunkWith mkIxmap loader s

def get_batch {α : Type} [Inhabited α] (loader : Nat → Chunk α) (s : BState α) :
    Option (Dict (List α) × BState α) :=
  get_batchWith mkIxmap loader s

def mk {α : Type} [Inhabited α] (loader : Nat → Chunk α) (data_TS : TSInput α)
    (batch_size batch_size_TS_mul : Nat) (btype : String) (seed : Nat) :
    Except Err (BState α) :=
  mkWith mkIxmap BATCHING_TYPES loader data_TS batch_size batch_size_TS_mul btype seed

/-- `set_batch_size(bs)` (`comoneural/batcher.py` lines 146-148): store
the new batch size and drop the whole TS-batch cache. -/
def set_batch_size {α : Type} (s : BState α) (bs : Nat) : BState α :=
  { s with batch_size := bs, TS_batches := [] }

end CB

/-- State after `n` successful `get_batch()` pulls. -/
def pullState {α : Type} [Inhabited α]
    (mkIx : String → Nat → Nat → Rng → Option (List Nat × Rng))
    (loader : Nat → Chunk α) (s : BState α) : Nat → Option (BState α)
  | 0 => some s
  | n + 1 =>
    match pullState mkIx loader s n with
    | some t => (get_batchWith mkIx loader t).map Prod.snd
    | none => none

/-- The `n`-th (0-based) result of `get_batch()`. -/
def nthBatch {α : Type} [Inhabited α]
    (mkIx : String → Nat → Nat → Rng → Option (List Nat × Rng))
    (loader : Nat → Chunk α) (s : BState α) (n : Nat) : Option (Dict (List α)) :=
  (pullState mkIx loader s n).bind (fun t => (get_batchWith mkIx loader t).map Prod.fst)

/-- The list of batches delivered by `n` consecutive `get_batch()` pulls. -/
def pullBatches {α : Type} [Inhabited α]
    (mkIx : String → Nat → Nat → Rng → Option (List Nat × Rng))
    (loader : Nat → Chunk α) : Nat → BState α → Option (List (Dict (List α)) × BState α)
  | 0, s => some ([], s)
  | n + 1, s =>
    match get_batchWith mkIx loader s with
    | some (b, s2) => (pullBatches mkIx loader n s2).map (fun p => (b :: p.1, p.2))
    | none => none

/-! ### helper lemmas -/

theorem dGet_map_self {α : Type} (keys : List String) (f : String → List α)
    (k : String) (hk : k ∈ keys) :
    dGet (keys.map (fun k => (k, f k))) k = f k := by
  induction keys with
  | nil => cases hk
  | cons a rest ih =>
    by_cases hak : a = k
    · subst hak
      simp [dGet, dFind]
    · rcases List.mem_cons.mp hk with hke | hkm
      · exact absurd hke.symm hak
      · have hne : (a == k) = false := by
          simp [hak]
        simpa [dGet, dFind, hne] using ih hkm

theorem dictKeys_map_self {α : Type} (keys : List String) (f : String → List α) :
    dictKeys (keys.map (fun k => (k, f k))) = keys := by
  simp [dictKeys, List.map_map]
  exact List.map_id keys

theorem fancyIndex_length {α : Type} [Inhabited α] (l : List α) (ixs : List Nat) :
    (fancyIndex l ixs).length = ixs.length :=
  List.length_map ixs _

theorem fancyIndex_append {α : Type} [Inhabited α] (l : List α) (a b : List Nat) :
    fancyIndex l (a ++ b) = fancyIndex l a ++ fancyIndex l b :=
  List.map_append _ a b

theorem pySlice_length {α : Type} (l : List α) (a b : Nat) :
    (pySlice l a b).length = min b l.length - a := by
  simp [pySlice]

theorem pySlice_append_drop {α : Type} (l : List α) (a b : Nat) (hab : a ≤ b) :
    pySlice l a b ++ l.drop b = l.drop a := by
  rcases Nat.le_total a l.length with hle | hle
  · have h1 : l.drop a = (l.take b ++ l.drop b).drop a := by
      rw [List.take_append_drop]
    rw [h1, List.drop_append_eq_append_drop]
    have h2 : a - (l.take b).length = 0 := by
      simp only [List.length_take]
      omega
    rw [h2, List.drop_zero, pySlice]
  · have h1 : pySlice l a b = [] := by
      apply List.eq_nil_of_length_eq_zero
      rw [pySlice_length]
      omega
    have h2 : l.drop a = [] := List.drop_eq_nil_of_le hle
    have h3 : l.drop b = [] := List.drop_eq_nil_of_le (le_trans hle hab)
    rw [h1, h2, h3]
    rfl

theorem map_getD_range {α : Type} [Inhabited α] (l : List α) :
    (List.range l.length).map (fun i => l.getD i default) = l := by
  apply List.ext_getElem
  · simp
  · intro i h1 h2
    simp only [List.getElem_map, List.getElem_range]
    exact List.getD_eq_getElem l default h2

theorem fancyIndex_perm {α : Type} [Inhabited α] (l : List α) (ixs : List Nat)
    (h : ixs.Perm (List.range l.length)) : (fancyIndex l ixs).Perm l := by
  have h1 : (fancyIndex l ixs).Perm (fancyIndex l (List.range l.length)) :=
    h.map _
  rw [show fancyIndex l (List.range l.length) = l from map_getD_range l] at h1
  exact h1

/-- Joining the remaining batches produced by the `split_into_batches`
loop, from loop counter `counter` on, yields exactly the tail of the
axis from position `counter * size`, for every axis whose length equals
the first-axis length. -/
theorem splitGo_join {α : Type} (data : Dict (List α)) (keys : List String)
    (size : Nat) (hsize : 0 < size) (k : String) (hk : k ∈ keys)
    (hlen : (dGet data k).length = (dGet data (keys.headD "")).length) :
    ∀ fuel counter,
      (dGet data (keys.headD "")).length ≤ counter * size + fuel * size →
      ((splitGo data keys size counter fuel).map (fun b => dGet b k)).flatten =
        (dGet data k).drop (counter * size) := by
  intro fuel
  induction fuel with
  | zero =>
    intro counter hfuel
    simp only [splitGo, List.map_nil, List.flatten_nil]
    symm
    apply List.drop_eq_nil_of_le
    omega
  | succ fuel ih =>
    intro counter hfuel
    by_cases hc : counter * size < (dGet data (keys.headD "")).length
    · simp only [splitGo, if_pos hc, List.map_cons, List.flatten_cons]
      rw [dGet_map_self keys _ k hk]
      have hstep : (counter + 1) * size = counter * size + size := Nat.succ_mul counter size
      have hstep2 : (fuel + 1) * size = fuel * size + size := Nat.succ_mul fuel size
      have ihh := ih (counter + 1) (by omega)
      rw [ihh, hstep]
      exact pySlice_append_drop (dGet data k) (counter * size) (counter * size + size)
        (by omega)
    · simp only [splitGo, if_neg hc, List.map_nil, List.flatten_nil]
      symm
      apply List.drop_eq_nil_of_le
      omega

/-- `split_into_batches` restores the data on every axis of the
first-axis length when joined back, for a positive batch size. -/
theorem split_into_batches_join {α : Type} (data : Dict (List α)) (size : Nat)
    (hsize : 0 < size) (k : String) (hk : k ∈ dictKeys data)
    (hlen : (dGet data k).length = (dGet data ((dictKeys data).headD "")).length) :
    ((split_into_batches data size).map (fun b => dGet b k)).flatten = dGet data k := by
  unfold split_into_batches
  have h := splitGo_join data (dictKeys data) size hsize k hk hlen
    ((dGet data ((dictKeys data).headD "")).length + 1) 0
    (by
      have : (dGet data ((dictKeys data).headD "")).length + 1 ≤
          ((dGet data ((dictKeys data).headD "")).length + 1) * size :=
        Nat.le_mul_of_pos_right _ hsize
      omega)
  simpa using h

/-- The head key of a non-empty dict is one of its keys. -/
theorem headD_mem_of_ne_nil (keys : List String) (h : keys ≠ []) :
    keys.headD "" ∈ keys := by
  cases keys with
  | nil => exact absurd rfl h
  | cons a rest => exact List.mem_cons_self a rest

/-- `int(d_len * f) ≤ d_len` for a factor `f ≤ 1`. -/
theorem floor_mul_le (n : Nat) (f : ℚ) (hf1 : f ≤ 1) :
    (⌊(n : ℚ) * f⌋).toNat ≤ n := by
  have h1 : (n : ℚ) * f ≤ (n : ℚ) := by
    calc (n : ℚ) * f ≤ (n : ℚ) * 1 :=
          mul_le_mul_of_nonneg_left hf1 (by positivity)
      _ = (n : ℚ) := mul_one _
  have h2 : ⌊(n : ℚ) * f⌋ ≤ ⌊(n : ℚ)⌋ := Int.floor_le_floor h1
  have h3 : ⌊(n : ℚ)⌋ = (n : ℤ) := Int.floor_natCast n
  omega

/-! ### C7 -/

/-- C7: for a dataset whose axes all have length `n` and a split factor
`f ∈ (0, 1]`, `data_split` returns a first (training) set of size
`n - int(n*f)` and a second (held-out) set of size `int(n*f)` on every
axis, and the two sizes sum to `n`. -/
theorem C7_data_split_sizes {α : Type} [Inhabited α] (data : Dict (List α))
    (f : ℚ) (seed : Nat) (n : Nat)
    (hkeys : dictKeys data ≠ [])
    (hax : ∀ k ∈ dictKeys data, (dGet data k).length = n)
    (hf0 : 0 < f) (hf1 : f ≤ 1) :
    ∀ k ∈ dictKeys data,
      (dGet (data_split data f seed).1 k).length = n - (⌊(n : ℚ) * f⌋).toNat ∧
      (dGet (data_split data f seed).2 k).length = (⌊(n : ℚ) * f⌋).toNat ∧
      (dGet (data_split data f seed).1 k).length +
        (dGet (data_split data f seed).2 k).length = n := by
  intro k hk
  have hdlen : (dGet data ((dictKeys data).headD "")).length = n :=
    hax _ (headD_mem_of_ne_nil _ hkeys)
  have hperm := rngPermutation_perm (default_rng seed) ((dGet data ((dictKeys data).headD "")).length)
  have hplen : (rngPermutation (default_rng seed)
      ((dGet data ((dictKeys data).headD "")).length)).1.length = n := by
    rw [hperm.length_eq, List.length_range, hdlen]
  have hB := floor_mul_le n f hf1
  have h1 : dGet (data_split data f seed).1 k =
      fancyIndex (dGet data k)
        (((rngPermutation (default_rng seed)
            ((dGet data ((dictKeys data).headD "")).length)).1).take
          ((dGet data ((dictKeys data).headD "")).length -
            (⌊((dGet data ((dictKeys data).headD "")).length : ℚ) * f⌋).toNat)) := by
    simp only [data_split]
    exact dGet_map_self (dictKeys data) _ k hk
  have h2 : dGet (data_split data f seed).2 k =
      fancyIndex (dGet data k)
        (((rngPermutation (default_rng seed)
            ((dGet data ((dictKeys data).headD "")).length)).1).drop
          ((dGet data ((dictKeys data).headD "")).length -
            (⌊((dGet data ((dictKeys data).headD "")).length : ℚ) * f⌋).toNat)) := by
    simp only [data_split]
    exact dGet_map_self (dictKeys data) _ k hk
  rw [h1, h2, fancyIndex_length, fancyIndex_length, List.length_take, List.length_drop,
    hplen, hdlen]
  omega

def exData : Dict (List Nat) := [("x", [1, 2, 3, 4]), ("y", [5, 6, 7, 8])]

theorem C7_data_split_sizes_witness :
    (dictKeys exData ≠ []) ∧
    (∀ k ∈ dictKeys exData, (dGet exData k).length = 4) ∧
    (0 < (1 / 2 : ℚ)) ∧ ((1 / 2 : ℚ) ≤ 1) ∧
    (∀ k ∈ dictKeys exData,
      (dGet (data_split exData (1 / 2) 0).1 k).length = 4 - (⌊(4 : ℚ) * (1 / 2)⌋).toNat ∧
      (dGet (data_split exData (1 / 2) 0).2 k).length = (⌊(4 : ℚ) * (1 / 2)⌋).toNat ∧
      (dGet (data_split exData (1 / 2) 0).1 k).length +
        (dGet (data_split exData (1 / 2) 0).2 k).length = 4) :=
  ⟨by decide, by decide, by norm_num, by norm_num,
    C7_data_split_sizes exData (1 / 2) 0 4 (by decide) (by decide)
      (by norm_num) (by norm_num)⟩

/-! ### C10 -/

/-- C10: `data_split` partitions its input: the two returned sets are
built by applying the disjoint index lists `take`/`drop` of one
permutation of the full index range to every axis, so on every axis the
two returned sets together are a permutation of the input (no sample is
dropped or duplicated). -/
theorem C10_data_split_partition {α : Type} [Inhabited α] (data : Dict (List α))
    (f : ℚ) (seed : Nat) (n : Nat)
    (hkeys : dictKeys data ≠ [])
    (hax : ∀ k ∈ dictKeys data, (dGet data k).length = n) :
    ∃ ixA ixB : List Nat,
      ixA ++ ixB = (rngPermutation (default_rng seed) n).1 ∧
      (ixA ++ ixB).Perm (List.range n) ∧
      ixA.Disjoint ixB ∧
      ∀ k ∈ dictKeys data,
        dGet (data_split data f seed).1 k = fancyIndex (dGet data k) ixA ∧
        dGet (data_split data f seed).2 k = fancyIndex (dGet data k) ixB ∧
        (dGet (data_split data f seed).1 k ++
          dGet (data_split data f seed).2 k).Perm (dGet data k) := by
  have hdlen : (dGet data ((dictKeys data).headD "")).length = n :=
    hax _ (headD_mem_of_ne_nil _ hkeys)
  refine ⟨((rngPermutation (default_rng seed) n).1).take
      (n - (⌊(n : ℚ) * f⌋).toNat),
    ((rngPermutation (default_rng seed) n).1).drop
      (n - (⌊(n : ℚ) * f⌋).toNat), List.take_append_drop _ _, ?_, ?_, ?_⟩
  · rw [List.take_append_drop]
    exact rngPermutation_perm _ _
  · have hnd : (((rngPermutation (default_rng seed) n).1).take
        (n - (⌊(n : ℚ) * f⌋).toNat) ++
        ((rngPermutation (default_rng seed) n).1).drop
        (n - (⌊(n : ℚ) * f⌋).toNat)).Nodup := by
      rw [List.take_append_drop]
      exact (rngPermutation_perm (default_rng seed) n).nodup_iff.mpr (List.nodup_range n)
    exact ((List.nodup_append.mp hnd).2.2 : _)
  · intro k hk
    have h1 : dGet (data_split data f seed).1 k =
        fancyIndex (dGet data k)
          (((rngPermutation (default_rng seed) n).1).take
            (n - (⌊(n : ℚ) * f⌋).toNat)) := by
      simp only [data_split, hdlen]
      exact dGet_map_self (dictKeys data) _ k hk
    have h2 : dGet (data_split data f seed).2 k =
        fancyIndex (dGet data k)
          (((rngPermutation (default_rng seed) n).1).drop
            (n - (⌊(n : ℚ) * f⌋).toNat)) := by
      simp only [data_split, hdlen]
      exact dGet_map_self (dictKeys data) _ k hk
    refine ⟨h1, h2, ?_⟩
    rw [h1, h2, ← fancyIndex_append, List.take_append_drop]
    apply fancyIndex_perm
    rw [hax k hk]
    exact rngPermutation_perm _ _

theorem C10_data_split_partition_witness :
    (dictKeys exData ≠ []) ∧
    (∀ k ∈ dictKeys exData, (dGet exData k).length = 4) ∧
    (∃ ixA ixB : List Nat,
      ixA ++ ixB = (rngPermutation (default_rng 0) 4).1 ∧
      (ixA ++ ixB).Perm (List.range 4) ∧
      ixA.Disjoint ixB ∧
      ∀ k ∈ dictKeys exData,
        dGet (data_split exData (1 / 4) 0).1 k = fancyIndex (dGet exData k) ixA ∧
        dGet (data_split exData (1 / 4) 0).2 k = fancyIndex (dGet exData k) ixB ∧
        (dGet (data_split exData (1 / 4) 0).1 k ++
          dGet (data_split exData (1 / 4) 0).2 k).Perm (dGet exData k)) :=
  ⟨by decide, by decide,
    C10_data_split_partition exData (1 / 4) 0 4 (by decide) (by decide)⟩

/-! ### unfolding lemmas for the chunk/batch step functions -/

theorem getNext_no_leftover {α : Type} [Inhabited α]
    (mkIx : String → Nat → Nat → Rng → Option (List Nat × Rng))
    (loader : Nat → Chunk α) (s : BState α) (P : List Nat) (r2 : Rng)
    (hkeys : s.keys ≠ [])
    (hleft : s.ixmap.drop s.ixmap_pointer = [])
    (hmk : mkIx s.btype ((dGet (loader s.chunk_counter).data (s.keys.headD "")).length)
      s.batch_size s.rng = some (P, r2)) :
    getNextChunkWith mkIx loader s = some { s with
      keys := s.keys, rng := r2, ixmap := P, ixmap_pointer := 0,
      data_TR := (loader s.chunk_counter).data,
      data_TR_len := (dGet (loader s.chunk_counter).data (s.keys.headD "")).length,
      chunk_counter := s.chunk_counter + 1 } := by
  have hne : s.keys.isEmpty = false := by
    simp [List.isEmpty_iff, hkeys]
  simp only [getNextChunkWith, hne, Bool.false_eq_true, if_false, hmk, hleft,
    List.length_nil, ne_eq, not_true_eq_false, false_and, if_false]

theorem getNext_leftover_arr {α : Type} [Inhabited α]
    (mkIx : String → Nat → Nat → Rng → Option (List Nat × Rng))
    (loader : Nat → Chunk α) (s : BState α) (P : List Nat) (r2 : Rng)
    (hkeys : s.keys ≠ [])
    (hleft : s.ixmap.drop s.ixmap_pointer ≠ [])
    (harr : (loader s.chunk_counter).isArr = true)
    (hmk : mkIx s.btype ((dGet (loader s.chunk_counter).data (s.keys.headD "")).length)
      s.batch_size s.rng = some (P, r2)) :
    getNextChunkWith mkIx loader s = some { s with
      keys := s.keys, rng := r2,
      ixmap := List.range (s.ixmap.drop s.ixmap_pointer).length ++
        P.map (· + (s.ixmap.drop s.ixmap_pointer).length),
      ixmap_pointer := 0,
      data_TR := s.keys.map (fun k => (k,
        fancyIndex (dGet s.data_TR k) (s.ixmap.drop s.ixmap_pointer) ++
          dGet (loader s.chunk_counter).data k)),
      data_TR_len := (dGet (s.keys.map (fun k => (k,
        fancyIndex (dGet s.data_TR k) (s.ixmap.drop s.ixmap_pointer) ++
          dGet (loader s.chunk_counter).data k))) (s.keys.headD "")).length,
      chunk_counter := s.chunk_counter + 1 } := by
  have hne : s.keys.isEmpty = false := by
    simp [List.isEmpty_iff, hkeys]
  have hlen : (s.ixmap.drop s.ixmap_pointer).length ≠ 0 := by
    intro h0
    exact hleft (List.eq_nil_of_length_eq_zero h0)
  simp only [getNextChunkWith, hne, Bool.false_eq_true, if_false, hmk, ne_eq, hlen,
    not_false_eq_true, harr, and_self, if_true]

theorem getNext_leftover_notArr {α : Type} [Inhabited α]
    (mkIx : String → Nat → Nat → Rng → Option (List Nat × Rng))
    (loader : Nat → Chunk α) (s : BState α) (P : List Nat) (r2 : Rng)
    (hkeys : s.keys ≠ [])
    (harr : (loader s.chunk_counter).isArr = false)
    (hmk : mkIx s.btype ((dGet (loader s.chunk_counter).data (s.keys.headD "")).length)
      s.batch_size s.rng = some (P, r2)) :
    getNextChunkWith mkIx loader s = some { s with
      keys := s.keys, rng := r2, ixmap := P, ixmap_pointer := 0,
      data_TR := (loader s.chunk_counter).data,
      data_TR_len := (dGet (loader s.chunk_counter).data (s.keys.headD "")).length,
      chunk_counter := s.chunk_counter + 1 } := by
  have hne : s.keys.isEmpty = false := by
    simp [List.isEmpty_iff, hkeys]
  simp only [getNextChunkWith, hne, Bool.false_eq_true, if_false, hmk, harr, and_false,
    ne_eq, if_false]

theorem get_batch_no_refill {α : Type} [Inhabited α]
    (mkIx : String → Nat → Nat → Rng → Option (List Nat × Rng))
    (loader : Nat → Chunk α) (s : BState α)
    (h : s.ixmap_pointer + s.batch_size ≤ s.ixmap.length) :
    get_batchWith mkIx loader s = some
      (s.keys.map (fun k => (k, fancyIndex (dGet s.data_TR k)
        (pySlice s.ixmap s.ixmap_pointer (s.ixmap_pointer + s.batch_size)))),
       { s with
           rng := default_rng s.seed_counter, seed_counter := s.seed_counter + 1,
           ixmap_pointer := s.ixmap_pointer + s.batch_size }) := by
  simp only [get_batchWith, gt_iff_lt, Nat.not_lt.mpr h, if_false]

theorem get_batch_refill {α : Type} [Inhabited α]
    (mkIx : String → Nat → Nat → Rng → Option (List Nat × Rng))
    (loader : Nat → Chunk α) (s : BState α) (t : BState α)
    (h : s.ixmap.length < s.ixmap_pointer + s.batch_size)
    (hnext : getNextChunkWith mkIx loader
      { s with rng := default_rng s.seed_counter, seed_counter := s.seed_counter + 1 } =
      some t) :
    get_batchWith mkIx loader s = some
      (t.keys.map (fun k => (k, fancyIndex (dGet t.data_TR k)
        (pySlice t.ixmap t.ixmap_pointer (t.ixmap_pointer + t.batch_size)))),
       { t with ixmap_pointer := t.ixmap_pointer + t.batch_size }) := by
  simp only [get_batchWith, gt_iff_lt, h, if_true, hnext]

/-! ### C5 -/

/-- C5: every modelled misconfiguration raises the one utility-level
error type (`Err.batcherException`): an unknown batching type in either
constructor, a missing test-set name when the held-out sets are named,
an unknown test-set name, an empty file list in `FilesBatcher`, and a
split request while `data_TS` is also supplied. -/
theorem C5_single_error_type {α : Type} [Inhabited α] :
    (∀ (loader : Nat → Chunk α) (ts : TSInput α) (bs mul : Nat) (btype : String) (seed : Nat),
      btype ∉ TB.BATCHING_TYPES →
      TB.mk loader ts bs mul btype seed =
        .error (.batcherException "unknown batching_type")) ∧
    (∀ (loader : Nat → Chunk α) (ts : TSInput α) (bs mul : Nat) (btype : String) (seed : Nat),
      btype ∉ CB.BATCHING_TYPES →
      CB.mk loader ts bs mul btype seed =
        .error (.batcherException "unknown batching_type")) ∧
    (∀ (s : BState α) (ts : Dict (Dict (List α))),
      s.data_TS = some ts → dictKeys ts ≠ [default_TS_name] →
      get_TS_batchesWith s none =
        .error (.batcherException "ERR: TS name must be given!")) ∧
    (∀ (s : BState α) (ts : Dict (Dict (List α))) (name : String),
      s.data_TS = some ts → name ∉ dictKeys ts →
      get_TS_batchesWith s (some name) =
        .error (.batcherException "ERR: TS name unknown!")) ∧
    (TB.FilesBatcher_checkDataFiles [] =
      .error (.batcherException "data_files is empty: []")) ∧
    (∀ (data : Dict (List α)) (isArr : Bool) (f : ℚ) (ts : TSInput α)
       (bs mul : Nat) (btype : String) (seed : Nat),
      0 < f → ts ≠ .null →
      TB.DataBatcher_mk data isArr f ts bs mul btype seed =
        .error (.batcherException "cannot split data because data_TS is given")) := by
  refine ⟨?_, ?_, ?_, ?_, ?_, ?_⟩
  · intro loader ts bs mul btype seed h
    simp [TB.mk, mkWith, h]
  · intro loader ts bs mul btype seed h
    simp [CB.mk, mkWith, h]
  · intro s ts hts hnames
    simp [get_TS_batchesWith, hts, hnames]
  · intro s ts name hts hname
    simp [get_TS_batchesWith, hts, hname]
  · rfl
  · intro data isArr f ts bs mul btype seed hf hts
    cases ts with
    | null => exact absurd rfl hts
    | unnamed d => simp [TB.DataBatcher_mk, hf]
    | named d => simp [TB.DataBatcher_mk, hf]

def exLoader : Nat → Chunk Nat := fun _ => ⟨exData, true⟩

def exTS : Dict (Dict (List Nat)) := [("a", exData)]

def exState : BState Nat := {
  seed_counter := 123, rng := default_rng 123, btype := "random",
  batch_size := 2, batch_size_TS_mul := 2,
  data_TR := exData, keys := ["x", "y"], data_TR_len := 4,
  ixmap := [0, 1, 2, 3], ixmap_pointer := 0, chunk_counter := 1,
  data_TS := some exTS, TS_batches := [] }

theorem C5_single_error_type_witness :
    (("zzz" ∉ TB.BATCHING_TYPES) ∧
      TB.mk exLoader .null 2 2 "zzz" 0 =
        .error (.batcherException "unknown batching_type")) ∧
    (("zzz" ∉ CB.BATCHING_TYPES) ∧
      CB.mk exLoader .null 2 2 "zzz" 0 =
        .error (.batcherException "unknown batching_type")) ∧
    (exState.data_TS = some exTS ∧ dictKeys exTS ≠ [default_TS_name] ∧
      get_TS_batchesWith exState none =
        .error (.batcherException "ERR: TS name must be given!")) ∧
    (("b" ∉ dictKeys exTS) ∧
      get_TS_batchesWith exState (some "b") =
        .error (.batcherException "ERR: TS name unknown!")) ∧
    (TB.FilesBatcher_checkDataFiles [] =
      .error (.batcherException "data_files is empty: []")) ∧
    ((0 : ℚ) < 1 / 2 ∧ (TSInput.unnamed exData ≠ TSInput.null) ∧
      TB.DataBatcher_mk exData true (1 / 2) (.unnamed exData) 2 2 "random" 0 =
        .error (.batcherException "cannot split data because data_TS is given")) :=
  ⟨⟨by decide, (C5_single_error_type (α := Nat)).1 exLoader .null 2 2 "zzz" 0 (by decide)⟩,
   ⟨by decide, (C5_single_error_type (α := Nat)).2.1 exLoader .null 2 2 "zzz" 0 (by decide)⟩,
   ⟨rfl, by decide,
     (C5_single_error_type (α := Nat)).2.2.1 exState exTS rfl (by decide)⟩,
   ⟨by decide,
     (C5_single_error_type (α := Nat)).2.2.2.1 exState exTS "b" rfl (by decide)⟩,
   (C5_single_error_type (α := Nat)).2.2.2.2.1,
   ⟨by norm_num, by decide,
     (C5_single_error_type (α := Nat)).2.2.2.2.2 exData true (1 / 2) (.unnamed exData)
       2 2 "random" 0 (by norm_num) (by decide)⟩⟩

/-! ### C9 -/

/-- C9: `set_batch_size(bs)` of the comoneural Batcher stores the new
batch size and clears the whole TS-batch cache, so a following
`get_TS_batches` call recomputes the partition with chunk size
`bs * batch_size_TS_mul`. -/
theorem C9_set_batch_size_clears_cache {α : Type} [Inhabited α]
    (s : BState α) (bs : Nat) (ts : Dict (Dict (List α))) (name : String)
    (hts : s.data_TS = some ts) (hname : name ∈ dictKeys ts) :
    (CB.set_batch_size s bs).TS_batches = [] ∧
    (CB.set_batch_size s bs).batch_size = bs ∧
    get_TS_batchesWith (CB.set_batch_size s bs) (some name) =
      .ok (split_into_batches ((dFind ts name).getD []) (bs * s.batch_size_TS_mul),
        { s with
            batch_size := bs,
            TS_batches := [(name,
              split_into_batches ((dFind ts name).getD []) (bs * s.batch_size_TS_mul))] }) := by
  refine ⟨rfl, rfl, ?_⟩
  simp [get_TS_batchesWith, CB.set_batch_size, hts, hname, dFind]

theorem C9_set_batch_size_clears_cache_witness :
    (exState.data_TS = some exTS ∧ "a" ∈ dictKeys exTS) ∧
    ((CB.set_batch_size exState 3).TS_batches = [] ∧
     (CB.set_batch_size exState 3).batch_size = 3 ∧
     get_TS_batchesWith (CB.set_batch_size exState 3) (some "a") =
       .ok (split_into_batches ((dFind exTS "a").getD []) (3 * exState.batch_size_TS_mul),
         { exState with
             batch_size := 3,
             TS_batches := [("a",
               split_into_batches ((dFind exTS "a").getD [])
                 (3 * exState.batch_size_TS_mul))] })) :=
  ⟨⟨rfl, by decide⟩,
    C9_set_batch_size_clears_cache exState 3 exTS "a" rfl (by decide)⟩

/-! ### C6 -/

theorem dFind_append_right {β : Type} (d : Dict β) (name : String) (b : β)
    (h : dFind d name = none) :
    dFind (d ++ [(name, b)]) name = some b := by
  simp only [dFind, List.find?_append]
  have h1 : d.find? (fun p => p.1 == name) = none := by
    simp only [dFind, Option.map_eq_none] at h
    exact Option.map_eq_none.mp h
  rw [h1]
  simp

/-- C6: for a valid held-out set name that is not cached yet,
`get_TS_batches(name)` computes the batch partition of that set with
chunk size `batch_size * batch_size_TS_mul`, caches it, restores the set
exactly when the returned batches are concatenated axis by axis, and a
repeated call returns the cached, identical list without changing the
state. -/
theorem C6_get_TS_batches_partition {α : Type} [Inhabited α]
    (s : BState α) (ts : Dict (Dict (List α))) (name : String)
    (hts : s.data_TS = some ts) (hname : name ∈ dictKeys ts)
    (hmiss : dFind s.TS_batches name = none)
    (hsize : 0 < s.batch_size * s.batch_size_TS_mul)
    (hax : ∀ k ∈ dictKeys ((dFind ts name).getD []),
      (dGet ((dFind ts name).getD []) k).length =
      (dGet ((dFind ts name).getD [])
        ((dictKeys ((dFind ts name).getD [])).headD "")).length) :
    ∃ b, b = split_into_batches ((dFind ts name).getD [])
        (s.batch_size * s.batch_size_TS_mul) ∧
      get_TS_batchesWith s (some name) =
        .ok (b, { s with TS_batches := s.TS_batches ++ [(name, b)] }) ∧
      (∀ k ∈ dictKeys ((dFind ts name).getD []),
        (b.map (fun bb => dGet bb k)).flatten = dGet ((dFind ts name).getD []) k) ∧
      get_TS_batchesWith { s with TS_batches := s.TS_batches ++ [(name, b)] }
        (some name) =
        .ok (b, { s with TS_batches := s.TS_batches ++ [(name, b)] }) := by
  refine ⟨split_into_batches ((dFind ts name).getD [])
      (s.batch_size * s.batch_size_TS_mul), rfl, ?_, ?_, ?_⟩
  · simp [get_TS_batchesWith, hts, hname, hmiss]
  · intro k hk
    exact split_into_batches_join _ _ hsize k hk (hax k hk)
  · have hhit := dFind_append_right s.TS_batches name
      (split_into_batches ((dFind ts name).getD [])
        (s.batch_size * s.batch_size_TS_mul)) hmiss
    simp [get_TS_batchesWith, hts, hname, hhit]

theorem C6_get_TS_batches_partition_witness :
    (exState.data_TS = some exTS ∧ "a" ∈ dictKeys exTS ∧
     dFind exState.TS_batches "a" = none ∧
     0 < exState.batch_size * exState.batch_size_TS_mul ∧
     (∀ k ∈ dictKeys ((dFind exTS "a").getD []),
       (dGet ((dFind exTS "a").getD []) k).length =
       (dGet ((dFind exTS "a").getD [])
         ((dictKeys ((dFind exTS "a").getD [])).headD "")).length)) ∧
    (∃ b, b = split_into_batches ((dFind exTS "a").getD [])
        (exState.batch_size * exState.batch_size_TS_mul) ∧
      get_TS_batchesWith exState (some "a") =
        .ok (b, { exState with TS_batches := exState.TS_batches ++ [("a", b)] }) ∧
      (∀ k ∈ dictKeys ((dFind exTS "a").getD []),
        (b.map (fun bb => dGet bb k)).flatten = dGet ((dFind exTS "a").getD []) k) ∧
      get_TS_batchesWith { exState with TS_batches := exState.TS_batches ++ [("a", b)] }
        (some "a") =
        .ok (b, { exState with TS_batches := exState.TS_batches ++ [("a", b)] })) :=
  ⟨⟨rfl, by decide, rfl, by decide, by decide⟩,
    C6_get_TS_batches_partition exState exTS "a" rfl (by decide) rfl (by decide)
      (by decide)⟩

/-! ### C3 -/

/-- C3 (counterexample): the top-level `torchness/batcher.py` Batcher
does not support the three sampling policies: `"random_cov"` is not in
its `BATCHING_TYPES`, constructing with it raises, and its `"random"`
mode draws `chunk_len` indices (a full-coverage draw), not a batch-size
draw: at `chunk_len = 4`, `batch_size = 2` the fresh index map has
length 4. -/
theorem C3_counterexample :
    ("random_cov" ∉ TB.BATCHING_TYPES) ∧
    TB.mk exLoader .null 2 2 "random_cov" 123 =
      .error (.batcherException "unknown batching_type") ∧
    (TB.mkIxmap "random" 4 2 (default_rng 0)).map (fun p => p.1.length) = some 4 := by
  refine ⟨by decide, rfl, by decide⟩

/-- C3 (amended): the comoneural Batcher supports exactly the three
sampling policies with the spec's semantics — `"base"` yields the chunk
indices in order, `"random"` a batch-size draw without replacement,
`"random_cov"` a full-coverage shuffle — while the top-level Batcher
supports exactly `"base"` and `"random"`, where `"random"` draws
`chunk_len` indices without replacement, i.e. a full-coverage
permutation. -/
theorem C3_sampling_policies :
    TB.BATCHING_TYPES = ["base", "random"] ∧
    CB.BATCHING_TYPES = ["base", "random", "random_cov"] ∧
    (∀ (n bs : Nat) (r : Rng), CB.mkIxmap "base" n bs r = some (List.range n, r)) ∧
    (∀ (n bs : Nat) (r : Rng) (out : List Nat × Rng), bs ≤ n →
      CB.mkIxmap "random" n bs r = some out →
      out.1.length = bs ∧ out.1.Nodup ∧ ∀ i ∈ out.1, i < n) ∧
    (∀ (n bs : Nat) (r : Rng) (out : List Nat × Rng),
      CB.mkIxmap "random_cov" n bs r = some out → out.1.Perm (List.range n)) ∧
    (∀ (n bs : Nat) (r : Rng), TB.mkIxmap "base" n bs r = some (List.range n, r)) ∧
    (∀ (n bs : Nat) (r : Rng) (out : List Nat × Rng),
      TB.mkIxmap "random" n bs r = some out → out.1.Perm (List.range n)) := by
  refine ⟨rfl, rfl, ?_, ?_, ?_, ?_, ?_⟩
  · intro n bs r
    rfl
  · intro n bs r out hbs hout
    rw [show CB.mkIxmap "random" n bs r = rngChoiceNoRep r n bs from rfl] at hout
    exact rngChoiceNoRep_spec r n bs hbs out hout
  · intro n bs r out hout
    rw [show CB.mkIxmap "random_cov" n bs r =
      some (rngShuffle r (List.range n)) from rfl] at hout
    obtain rfl := (Option.some_injective _ hout).symm
    exact rngShuffle_perm r (List.range n)
  · intro n bs r
    rfl
  · intro n bs r out hout
    rw [show TB.mkIxmap "random" n bs r = rngChoiceNoRep r n n from rfl] at hout
    rw [rngChoiceNoRep_eq_some r n n le_rfl] at hout
    obtain rfl := (Option.some_injective _ hout).symm
    have hlen : (rngShuffle r (List.range n)).1.length = n := by
      rw [rngShuffle_length, List.length_range]
    rw [show ((rngShuffle r (List.range n)).1.take n,
        (rngShuffle r (List.range n)).2).1 =
      (rngShuffle r (List.range n)).1.take n from rfl]
    rw [List.take_of_length_le (le_of_eq hlen)]
    exact rngShuffle_perm r (List.range n)

theorem C3_sampling_policies_witness :
    ((2 : Nat) ≤ 4 ∧
      ∀ out : List Nat × Rng, CB.mkIxmap "random" 4 2 (default_rng 0) = some out →
        out.1.length = 2 ∧ out.1.Nodup ∧ ∀ i ∈ out.1, i < 4) ∧
    (∀ out : List Nat × Rng, CB.mkIxmap "random_cov" 4 2 (default_rng 0) = some out →
      out.1.Perm (List.range 4)) ∧
    (∀ out : List Nat × Rng, TB.mkIxmap "random" 4 2 (default_rng 0) = some out →
      out.1.Perm (List.range 4)) :=
  ⟨⟨by decide, fun out => C3_sampling_policies.2.2.2.1 4 2 (default_rng 0) out (by decide)⟩,
   fun out => C3_sampling_policies.2.2.2.2.1 4 2 (default_rng 0) out,
   fun out => C3_sampling_policies.2.2.2.2.2.2 4 2 (default_rng 0) out⟩

/-! ### C1 -/

theorem getNext_seed_counter {α : Type} [Inhabited α]
    (mkIx : String → Nat → Nat → Rng → Option (List Nat × Rng))
    (loader : Nat → Chunk α) (s t : BState α)
    (h : getNextChunkWith mkIx loader s = some t) :
    t.seed_counter = s.seed_counter := by
  simp only [getNextChunkWith] at h
  split at h
  · cases h
  · split at h <;> (cases h; rfl)

theorem get_batch_seed_counter {α : Type} [Inhabited α]
    (mkIx : String → Nat → Nat → Rng → Option (List Nat × Rng))
    (loader : Nat → Chunk α) (s : BState α) (b : Dict (List α)) (t : BState α)
    (h : get_batchWith mkIx loader s = some (b, t)) :
    t.seed_counter = s.seed_counter + 1 := by
  simp only [get_batchWith] at h
  split at h
  · cases h
  · rename_i s2 heq
    cases h
    split at heq
    · exact getNext_seed_counter mkIx loader _ s2 heq
    · cases heq
      rfl

theorem mk_seed_counter {α : Type} [Inhabited α]
    (mkIx : String → Nat → Nat → Rng → Option (List Nat × Rng))
    (types : List String) (loader : Nat → Chunk α) (ts : TSInput α)
    (bs mul : Nat) (btype : String) (seed : Nat) (s : BState α)
    (h : mkWith mkIx types loader ts bs mul btype seed = .ok s) :
    s.seed_counter = seed := by
  simp only [mkWith] at h
  split at h
  · cases h
  · split at h
    · cases h
    · rename_i s1 heq
      cases h
      exact getNext_seed_counter mkIx loader _ s1 heq

theorem pullState_seed_counter {α : Type} [Inhabited α]
    (mkIx : String → Nat → Nat → Rng → Option (List Nat × Rng))
    (loader : Nat → Chunk α) (s : BState α) :
    ∀ (n : Nat) (t : BState α), pullState mkIx loader s n = some t →
      t.seed_counter = s.seed_counter + n := by
  intro n
  induction n with
  | zero =>
    intro t h
    cases h
    rfl
  | succ n ih =>
    intro t h
    unfold pullState at h
    cases hp : pullState mkIx loader s n with
    | none =>
      rw [hp] at h
      cases h
    | some t0 =>
      rw [hp] at h
      cases hg : get_batchWith mkIx loader t0 with
      | none =>
        simp only [hg] at h
        simp at h
      | some pr =>
        simp only [hg, Option.map_some] at h
        cases h
        have h1 := get_batch_seed_counter mkIx loader t0 pr.1 pr.2
          (by rw [hg])
        rw [h1, ih t0 hp]
        omega

/-- C1: two Batcher instances constructed with the same arguments over
the same data produce identical batch sequences — the `n`-th result of
`get_batch()` agrees for every `n` — and after `n` pulls the seed
counter equals the initial seed plus `n`, since `get_batch()` reseeds
the generator from the counter and increments it exactly once per pull,
making the sequence a pure function of the initial seed and the pull
count. -/
theorem C1_reproducibility {α : Type} [Inhabited α]
    (mkIx : String → Nat → Nat → Rng → Option (List Nat × Rng))
    (types : List String) (loader : Nat → Chunk α) (ts : TSInput α)
    (bs mul : Nat) (btype : String) (seed : Nat) (s1 s2 : BState α)
    (h1 : mkWith mkIx types loader ts bs mul btype seed = .ok s1)
    (h2 : mkWith mkIx types loader ts bs mul btype seed = .ok s2) :
    (∀ n : Nat, nthBatch mkIx loader s1 n = nthBatch mkIx loader s2 n) ∧
    (∀ (n : Nat) (t : BState α), pullState mkIx loader s1 n = some t →
      t.seed_counter = seed + n) := by
  have hs : s1 = s2 := by
    have h12 := h1.symm.trans h2
    exact Except.ok.inj h12
  subst hs
  refine ⟨fun n => rfl, fun n t h => ?_⟩
  rw [pullState_seed_counter mkIx loader s1 n t h,
    mk_seed_counter mkIx types loader ts bs mul btype seed s1 h1]

/-- The concrete state produced by `TB.mk exLoader .null 2 2 "random" 123`. -/
def exInit : BState Nat := {
  seed_counter := 123, rng := ⟨864299351⟩, btype := "random",
  batch_size := 2, batch_size_TS_mul := 2,
  data_TR := [("x", [1, 2, 3, 4]), ("y", [5, 6, 7, 8])],
  keys := ["x", "y"], data_TR_len := 4,
  ixmap := [0, 3, 1, 2], ixmap_pointer := 0, chunk_counter := 1,
  data_TS := none, TS_batches := [] }

theorem C1_reproducibility_witness :
    (TB.mk exLoader .null 2 2 "random" 123 = .ok exInit) ∧
    (∀ n : Nat,
      nthBatch TB.mkIxmap exLoader exInit n = nthBatch TB.mkIxmap exLoader exInit n) ∧
    (∀ (n : Nat) (t : BState Nat),
      pullState TB.mkIxmap exLoader exInit n = some t →
      t.seed_counter = 123 + n) := by
  have hmk : TB.mk exLoader .null 2 2 "random" 123 = .ok exInit := by
    rfl
  have h := C1_reproducibility TB.mkIxmap TB.BATCHING_TYPES exLoader .null 2 2 "random" 123
    exInit exInit hmk hmk
  exact ⟨hmk, h.1, h.2⟩

/-! ### C2 -/

theorem pullBatches_succ {α : Type} [Inhabited α]
    (mkIx : String → Nat → Nat → Rng → Option (List Nat × Rng))
    (loader : Nat → Chunk α) (j : Nat) (s : BState α) (b : Dict (List α))
    (t : BState α) (h : get_batchWith mkIx loader s = some (b, t)) :
    pullBatches mkIx loader (j + 1) s =
      (pullBatches mkIx loader j t).map (fun p => (b :: p.1, p.2)) := by
  simp only [pullBatches, h]

/-- Consuming `j` batch pulls from a state whose index map `P` has
exactly `j * batch_size` entries left delivers, axis by axis, the
fancy-indexed tail of the data along `P` — the index map is consumed
left-to-right with no refill. -/
theorem pass_pulls {α : Type} [Inhabited α]
    (mkIx : String → Nat → Nat → Rng → Option (List Nat × Rng))
    (loader : Nat → Chunk α) (P : List Nat) (D : Dict (List α)) (K : List String)
    (bs : Nat) :
    ∀ (j : Nat) (t : BState α), t.ixmap = P → t.data_TR = D → t.keys = K →
      t.batch_size = bs → t.ixmap_pointer + j * bs = P.length →
      ∃ (Bs : List (Dict (List α))) (t2 : BState α),
        pullBatches mkIx loader j t = some (Bs, t2) ∧
        Bs.length = j ∧
        ∀ k ∈ K, (Bs.map (fun b => dGet b k)).flatten =
          fancyIndex (dGet D k) (P.drop t.ixmap_pointer) := by
  intro j
  induction j with
  | zero =>
    intro t hP hD hK hbs hptr
    refine ⟨[], t, rfl, rfl, ?_⟩
    intro k hk
    have hdrop : P.drop t.ixmap_pointer = [] := by
      apply List.drop_eq_nil_of_le
      omega
    simp [hdrop, fancyIndex]
  | succ j ih =>
    intro t hP hD hK hbs hptr
    have hle : t.ixmap_pointer + t.batch_size ≤ t.ixmap.length := by
      rw [hP, hbs]
      have : (j + 1) * bs = j * bs + bs := Nat.succ_mul j bs
      omega
    have hgb := get_batch_no_refill mkIx loader t hle
    set t1 : BState α := { t with
        rng := default_rng t.seed_counter, seed_counter := t.seed_counter + 1,
        ixmap_pointer := t.ixmap_pointer + t.batch_size } with ht1
    obtain ⟨Bs, t2, hpb, hlen, hjoin⟩ := ih t1
      (by rw [ht1]; exact hP) (by rw [ht1]; exact hD) (by rw [ht1]; exact hK)
      (by rw [ht1]; exact hbs)
      (by
        show t.ixmap_pointer + t.batch_size + j * bs = P.length
        have : (j + 1) * bs = j * bs + bs := Nat.succ_mul j bs
        omega)
    refine ⟨t.keys.map (fun k => (k, fancyIndex (dGet t.data_TR k)
        (pySlice t.ixmap t.ixmap_pointer (t.ixmap_pointer + t.batch_size)))) :: Bs,
      t2, ?_, by simp [hlen], ?_⟩
    · rw [pullBatches_succ mkIx loader j t _ _ hgb, hpb]
      rfl
    · intro k hk
      have hk' : k ∈ t.keys := by
        rw [hK]; exact hk
      simp only [List.map_cons, List.flatten_cons]
      rw [dGet_map_self t.keys _ k hk', hjoin k hk]
      have hptr1 : t1.ixmap_pointer = t.ixmap_pointer + t.batch_size := rfl
      rw [hptr1, hP, hD, ← fancyIndex_append]
      rw [pySlice_append_drop P t.ixmap_pointer (t.ixmap_pointer + t.batch_size)
        (Nat.le_add_right _ _)]

/-- C2: starting a fresh pass (no leftover indices) under the
`"random_cov"` policy, the freshly generated index map is a permutation
of the chunk's index range, and consuming the whole pass with
`get_batch()` delivers, on every axis, a permutation of the chunk data —
every sample of the chunk appears exactly once in the delivered batches
before any repeat. -/
theorem C2_random_cov_coverage {α : Type} [Inhabited α]
    (loader : Nat → Chunk α) (s : BState α) (kk : Nat)
    (hbtype : s.btype = "random_cov")
    (hkeys : s.keys ≠ [])
    (hleft : s.ixmap.drop s.ixmap_pointer = [])
    (hbs : 0 < s.batch_size)
    (hn : (dGet (loader s.chunk_counter).data (s.keys.headD "")).length =
      kk * s.batch_size)
    (hax : ∀ k ∈ s.keys, (dGet (loader s.chunk_counter).data k).length =
      (dGet (loader s.chunk_counter).data (s.keys.headD "")).length) :
    ∃ (P : List Nat) (Bs : List (Dict (List α))) (t2 : BState α),
      P.Perm (List.range
        ((dGet (loader s.chunk_counter).data (s.keys.headD "")).length)) ∧
      pullBatches CB.mkIxmap loader kk s = some (Bs, t2) ∧
      Bs.length = kk ∧
      (∀ k ∈ s.keys, (Bs.map (fun b => dGet b k)).flatten =
        fancyIndex (dGet (loader s.chunk_counter).data k) P) ∧
      (∀ k ∈ s.keys, ((Bs.map (fun b => dGet b k)).flatten).Perm
        (dGet (loader s.chunk_counter).data k)) := by
  set n := (dGet (loader s.chunk_counter).data (s.keys.headD "")).length with hnn
  cases kk with
  | zero =>
    have hn0 : n = 0 := by
      rw [hn]
      exact Nat.zero_mul _
    refine ⟨(rngShuffle (default_rng s.seed_counter) (List.range n)).1, [], s,
      rngShuffle_perm _ _, rfl, rfl, ?_, ?_⟩
    · intro k hk
      have hP0 : (rngShuffle (default_rng s.seed_counter) (List.range n)).1 = [] := by
        apply List.eq_nil_of_length_eq_zero
        rw [rngShuffle_length, List.length_range]
        exact hn0
      rw [hP0]
      simp [fancyIndex]
    · intro k hk
      have h0 : (dGet (loader s.chunk_counter).data k).length = 0 := by
        rw [hax k hk]
        exact hn0
      rw [List.eq_nil_of_length_eq_zero h0]
      simp
  | succ j =>
    set s1 : BState α := { s with
        rng := default_rng s.seed_counter, seed_counter := s.seed_counter + 1 } with hs1
    have hmkix : CB.mkIxmap s1.btype
        ((dGet (loader s1.chunk_counter).data (s1.keys.headD "")).length)
        s1.batch_size s1.rng =
        some ((rngShuffle (default_rng s.seed_counter) (List.range n)).1,
          (rngShuffle (default_rng s.seed_counter) (List.range n)).2) := by
      show CB.mkIxmap s.btype n s.batch_size (default_rng s.seed_counter) = _
      rw [hbtype]
      rfl
    have hnext := getNext_no_leftover CB.mkIxmap loader s1
      (rngShuffle (default_rng s.seed_counter) (List.range n)).1
      (rngShuffle (default_rng s.seed_counter) (List.range n)).2
      (by show s.keys ≠ []; exact hkeys)
      (by show s.ixmap.drop s.ixmap_pointer = []; exact hleft)
      hmkix
    have htrig : s.ixmap.length < s.ixmap_pointer + s.batch_size := by
      have : s.ixmap.length - s.ixmap_pointer = 0 := by
        have := congrArg List.length hleft
        simpa using this
      omega
    have hgb := get_batch_refill CB.mkIxmap loader s _ htrig hnext
    set P := (rngShuffle (default_rng s.seed_counter) (List.range n)).1 with hPP
    have hPlen : P.length = n := by
      rw [hPP, rngShuffle_length, List.length_range]
    set t1 : BState α := { s1 with
        keys := s1.keys, rng := (rngShuffle (default_rng s.seed_counter) (List.range n)).2,
        ixmap := P, ixmap_pointer := 0,
        data_TR := (loader s1.chunk_counter).data,
        data_TR_len := (dGet (loader s1.chunk_counter).data (s1.keys.headD "")).length,
        chunk_counter := s1.chunk_counter + 1 } with ht1
    obtain ⟨Bs, t2, hpb, hlen, hjoin⟩ := pass_pulls CB.mkIxmap loader P
      (loader s.chunk_counter).data s.keys s.batch_size j
      { t1 with ixmap_pointer := t1.ixmap_pointer + t1.batch_size }
      rfl rfl rfl rfl
      (by
        show 0 + s.batch_size + j * s.batch_size = P.length
        rw [hPlen, hn]
        have : (j + 1) * s.batch_size = j * s.batch_size + s.batch_size :=
          Nat.succ_mul j s.batch_size
        omega)
    refine ⟨P, t1.keys.map (fun k => (k, fancyIndex (dGet t1.data_TR k)
        (pySlice t1.ixmap t1.ixmap_pointer (t1.ixmap_pointer + t1.batch_size)))) :: Bs,
      t2, by rw [hPP]; exact rngShuffle_perm _ _, ?_, by simp [hlen], ?_, ?_⟩
    · rw [pullBatches_succ CB.mkIxmap loader j s _ _ hgb, hpb]
      rfl
    · intro k hk
      simp only [List.map_cons, List.flatten_cons]
      have hk1 : k ∈ t1.keys := hk
      rw [dGet_map_self t1.keys _ k hk1, hjoin k hk]
      show fancyIndex (dGet (loader s.chunk_counter).data k)
          (pySlice P 0 (0 + s.batch_size)) ++
        fancyIndex (dGet (loader s.chunk_counter).data k)
          (P.drop (0 + s.batch_size)) = _
      rw [← fancyIndex_append,
        pySlice_append_drop P 0 (0 + s.batch_size) (Nat.zero_le _), List.drop_zero]
    · intro k hk
      have hj := hjoin k hk
      simp only [List.map_cons, List.flatten_cons]
      have hk1 : k ∈ t1.keys := hk
      rw [dGet_map_self t1.keys _ k hk1, hj]
      show (fancyIndex (dGet (loader s.chunk_counter).data k)
          (pySlice P 0 (0 + s.batch_size)) ++
        fancyIndex (dGet (loader s.chunk_counter).data k)
          (P.drop (0 + s.batch_size))).Perm _
      rw [← fancyIndex_append,
        pySlice_append_drop P 0 (0 + s.batch_size) (Nat.zero_le _), List.drop_zero]
      apply fancyIndex_perm
      rw [hax k hk]
      rw [hPP]
      exact rngShuffle_perm _ _

/-- A concrete comoneural state at the start of a pass (index map fully
consumed) under the `"random_cov"` policy. -/
def exStateCov : BState Nat := {
  seed_counter := 7, rng := default_rng 7, btype := "random_cov",
  batch_size := 2, batch_size_TS_mul := 2,
  data_TR := [], keys := ["x", "y"], data_TR_len := 0,
  ixmap := [], ixmap_pointer := 0, chunk_counter := 0,
  data_TS := none, TS_batches := [] }

theorem C2_random_cov_coverage_witness :
    (exStateCov.btype = "random_cov" ∧
     exStateCov.keys ≠ [] ∧
     exStateCov.ixmap.drop exStateCov.ixmap_pointer = [] ∧
     0 < exStateCov.batch_size ∧
     (dGet (exLoader exStateCov.chunk_counter).data
       (exStateCov.keys.headD "")).length = 2 * exStateCov.batch_size ∧
     (∀ k ∈ exStateCov.keys, (dGet (exLoader exStateCov.chunk_counter).data k).length =
       (dGet (exLoader exStateCov.chunk_counter).data (exStateCov.keys.headD "")).length)) ∧
    (∃ (P : List Nat) (Bs : List (Dict (List Nat))) (t2 : BState Nat),
      P.Perm (List.range
        ((dGet (exLoader exStateCov.chunk_counter).data (exStateCov.keys.headD "")).length)) ∧
      pullBatches CB.mkIxmap exLoader 2 exStateCov = some (Bs, t2) ∧
      Bs.length = 2 ∧
      (∀ k ∈ exStateCov.keys, (Bs.map (fun b => dGet b k)).flatten =
        fancyIndex (dGet (exLoader exStateCov.chunk_counter).data k) P) ∧
      (∀ k ∈ exStateCov.keys, ((Bs.map (fun b => dGet b k)).flatten).Perm
        (dGet (exLoader exStateCov.chunk_counter).data k))) :=
  ⟨⟨rfl, by decide, rfl, by decide, by decide, by decide⟩,
    C2_random_cov_coverage exLoader exStateCov 2 rfl (by decide) rfl (by decide)
      (by decide) (by decide)⟩

/-! ### C4 -/

/-- For every batching type of `src/torchness/batcher.py` the fresh
index map is produced (never an error) with `chunk_len` in-range
entries. -/
theorem TB_mkIxmap_total (btype : String) (h : btype ∈ TB.BATCHING_TYPES)
    (n bs : Nat) (r : Rng) :
    ∃ pr : List Nat × Rng, TB.mkIxmap btype n bs r = some pr ∧
      pr.1.length = n ∧ (∀ i ∈ pr.1, i < n) := by
  have h' : btype = "base" ∨ btype = "random" := by
    simpa [TB.BATCHING_TYPES] using h
  rcases h' with h' | h' <;> subst h'
  · refine ⟨(List.range n, r), rfl, List.length_range n, ?_⟩
    intro i hi
    exact List.mem_range.mp hi
  · refine ⟨((rngShuffle r (List.range n)).1.take n, (rngShuffle r (List.range n)).2),
      ?_, ?_, ?_⟩
    · show rngChoiceNoRep r n n = _
      exact rngChoiceNoRep_eq_some r n n le_rfl
    · have hs := rngChoiceNoRep_spec r n n le_rfl _ (rngChoiceNoRep_eq_some r n n le_rfl)
      exact hs.1
    · have hs := rngChoiceNoRep_spec r n n le_rfl _ (rngChoiceNoRep_eq_some r n n le_rfl)
      exact hs.2.2

/-- C4: a `get_batch()` call whose remaining index map is too short
(`pointer + batch_size > len(ixmap)`) with unconsumed leftover indices
fetches a new chunk and rebuilds state: when the chunk arrays are
concatenable (`np.ndarray`/`torch.Tensor`), the new index map is
`arange(left)` followed by the fresh map offset by `left`, the new data
is the leftover samples (in their previous delivery order) prepended to
the new chunk, and the first `left` delivered positions reproduce the
leftover samples in their previous order; otherwise the fresh map and
the bare chunk are installed and the leftover samples are dropped. -/
theorem C4_leftover_carry_over {α : Type} [Inhabited α]
    (loader : Nat → Chunk α) (s : BState α)
    (hkeys : s.keys ≠ [])
    (hbtype : s.btype ∈ TB.BATCHING_TYPES)
    (htrig : s.ixmap.length < s.ixmap_pointer + s.batch_size)
    (hleft : s.ixmap.drop s.ixmap_pointer ≠ []) :
    ∃ (ixn : List Nat) (rng2 : Rng) (t : BState α),
      TB.mkIxmap s.btype ((dGet (loader s.chunk_counter).data (s.keys.headD "")).length)
        s.batch_size (default_rng s.seed_counter) = some (ixn, rng2) ∧
      getNextChunkWith TB.mkIxmap loader
        { s with rng := default_rng s.seed_counter,
                 seed_counter := s.seed_counter + 1 } = some t ∧
      TB.get_batch loader s = some
        (t.keys.map (fun k => (k, fancyIndex (dGet t.data_TR k)
          (pySlice t.ixmap t.ixmap_pointer (t.ixmap_pointer + t.batch_size)))),
         { t with ixmap_pointer := t.ixmap_pointer + t.batch_size }) ∧
      t.chunk_counter = s.chunk_counter + 1 ∧
      t.keys = s.keys ∧
      ((loader s.chunk_counter).isArr = true →
        t.ixmap = List.range (s.ixmap.drop s.ixmap_pointer).length ++
          ixn.map (· + (s.ixmap.drop s.ixmap_pointer).length) ∧
        (∀ k ∈ s.keys, dGet t.data_TR k =
          fancyIndex (dGet s.data_TR k) (s.ixmap.drop s.ixmap_pointer) ++
            dGet (loader s.chunk_counter).data k) ∧
        (∀ j, j < (s.ixmap.drop s.ixmap_pointer).length → ∀ k ∈ s.keys,
          (dGet t.data_TR k).getD (t.ixmap.getD j 0) default =
            (dGet s.data_TR k).getD ((s.ixmap.drop s.ixmap_pointer).getD j 0) default)) ∧
      ((loader s.chunk_counter).isArr = false →
        t.ixmap = ixn ∧ t.data_TR = (loader s.chunk_counter).data) := by
  obtain ⟨pr, hpr, hprlen, hprmem⟩ := TB_mkIxmap_total s.btype hbtype
    ((dGet (loader s.chunk_counter).data (s.keys.headD "")).length)
    s.batch_size (default_rng s.seed_counter)
  set s1 : BState α := { s with
      rng := default_rng s.seed_counter, seed_counter := s.seed_counter + 1 } with hs1
  cases harr : (loader s.chunk_counter).isArr with
  | true =>
    have hnext := getNext_leftover_arr TB.mkIxmap loader s1 pr.1 pr.2
      (by show s.keys ≠ []; exact hkeys)
      (by show s.ixmap.drop s.ixmap_pointer ≠ []; exact hleft)
      (by show (loader s.chunk_counter).isArr = true; exact harr)
      (by
        show TB.mkIxmap s.btype
          ((dGet (loader s.chunk_counter).data (s.keys.headD "")).length)
          s.batch_size (default_rng s.seed_counter) = some (pr.1, pr.2)
        rw [hpr])
    have hgb := get_batch_refill TB.mkIxmap loader s _ htrig hnext
    refine ⟨pr.1, pr.2, _, by rw [hpr], hnext, hgb, rfl, rfl, ?_, ?_⟩
    · intro _
      refine ⟨rfl, ?_, ?_⟩
      · intro k hk
        exact dGet_map_self s.keys _ k hk
      · intro j hj k hk
        have hix : (List.range (s.ixmap.drop s.ixmap_pointer).length ++
            pr.1.map (· + (s.ixmap.drop s.ixmap_pointer).length)).getD j 0 = j := by
          rw [List.getD_append _ _ 0 j (by simpa using hj)]
          rw [List.getD_eq_getElem _ 0 (by simpa using hj)]
          simp
        have hdata : dGet (s.keys.map (fun k =>
            (k, fancyIndex (dGet s.data_TR k) (s.ixmap.drop s.ixmap_pointer) ++
              dGet (loader s.chunk_counter).data k))) k =
            fancyIndex (dGet s.data_TR k) (s.ixmap.drop s.ixmap_pointer) ++
              dGet (loader s.chunk_counter).data k :=
          dGet_map_self s.keys _ k hk
        show (dGet _ k).getD _ default = _
        rw [hdata, hix]
        have hjf : j < (fancyIndex (dGet s.data_TR k)
            (s.ixmap.drop s.ixmap_pointer)).length := by
          rw [fancyIndex_length]
          exact hj
        rw [List.getD_append _ _ default j hjf]
        rw [List.getD_eq_getElem _ default hjf]
        simp only [fancyIndex, List.getElem_map]
        rw [List.getD_eq_getElem _ 0 hj]
    · intro hfalse
      simp at hfalse
  | false =>
    have hnext := getNext_leftover_notArr TB.mkIxmap loader s1 pr.1 pr.2
      (by show s.keys ≠ []; exact hkeys)
      (by show (loader s.chunk_counter).isArr = false; exact harr)
      (by
        show TB.mkIxmap s.btype
          ((dGet (loader s.chunk_counter).data (s.keys.headD "")).length)
          s.batch_size (default_rng s.seed_counter) = some (pr.1, pr.2)
        rw [hpr])
    have hgb := get_batch_refill TB.mkIxmap loader s _ htrig hnext
    refine ⟨pr.1, pr.2, _, by rw [hpr], hnext, hgb, rfl, rfl, ?_, ?_⟩
    · intro htrue
      simp at htrue
    · intro _
      exact ⟨rfl, rfl⟩

/-- A concrete top-level Batcher state with one unconsumed leftover
index and a pull that overruns the index map. -/
def exStateLeft : BState Nat := {
  seed_counter := 50, rng := default_rng 50, btype := "base",
  batch_size := 2, batch_size_TS_mul := 2,
  data_TR := exData, keys := ["x", "y"], data_TR_len := 4,
  ixmap := [0, 1, 2, 3], ixmap_pointer := 3, chunk_counter := 1,
  data_TS := none, TS_batches := [] }

theorem C4_leftover_carry_over_witness :
    (exStateLeft.keys ≠ [] ∧
     exStateLeft.btype ∈ TB.BATCHING_TYPES ∧
     exStateLeft.ixmap.length < exStateLeft.ixmap_pointer + exStateLeft.batch_size ∧
     exStateLeft.ixmap.drop exStateLeft.ixmap_pointer ≠ []) ∧
    (∃ (ixn : List Nat) (rng2 : Rng) (t : BState Nat),
      TB.mkIxmap exStateLeft.btype
        ((dGet (exLoader exStateLeft.chunk_counter).data
          (exStateLeft.keys.headD "")).length)
        exStateLeft.batch_size (default_rng exStateLeft.seed_counter) = some (ixn, rng2) ∧
      getNextChunkWith TB.mkIxmap exLoader
        { exStateLeft with
            rng := default_rng exStateLeft.seed_counter,
            seed_counter := exStateLeft.seed_counter + 1 } = some t ∧
      TB.get_batch exLoader exStateLeft = some
        (t.keys.map (fun k => (k, fancyIndex (dGet t.data_TR k)
          (pySlice t.ixmap t.ixmap_pointer (t.ixmap_pointer + t.batch_size)))),
         { t with ixmap_pointer := t.ixmap_pointer + t.batch_size }) ∧
      t.chunk_counter = exStateLeft.chunk_counter + 1 ∧
      t.keys = exStateLeft.keys ∧
      ((exLoader exStateLeft.chunk_counter).isArr = true →
        t.ixmap = List.range (exStateLeft.ixmap.drop exStateLeft.ixmap_pointer).length ++
          ixn.map (· + (exStateLeft.ixmap.drop exStateLeft.ixmap_pointer).length) ∧
        (∀ k ∈ exStateLeft.keys, dGet t.data_TR k =
          fancyIndex (dGet exStateLeft.data_TR k)
            (exStateLeft.ixmap.drop exStateLeft.ixmap_pointer) ++
            dGet (exLoader exStateLeft.chunk_counter).data k) ∧
        (∀ j, j < (exStateLeft.ixmap.drop exStateLeft.ixmap_pointer).length →
          ∀ k ∈ exStateLeft.keys,
          (dGet t.data_TR k).getD (t.ixmap.getD j 0) default =
            (dGet exStateLeft.data_TR k).getD
              ((exStateLeft.ixmap.drop exStateLeft.ixmap_pointer).getD j 0) default)) ∧
      ((exLoader exStateLeft.chunk_counter).isArr = false →
        t.ixmap = ixn ∧ t.data_TR = (exLoader exStateLeft.chunk_counter).data)) :=
  ⟨⟨by decide, by decide, by decide, by decide⟩,
    C4_leftover_carry_over exLoader exStateLeft (by decide) (by decide)
      (by decide) (by decide)⟩

/-! ### C8 -/

/-- Invariant of a running top-level Batcher: valid batching type, fixed
batch size and key set, all axes of the current chunk share the length
`data_TR_len`, and every index-map entry is in range. -/
def TBInv {α : Type} [Inhabited α] (keys0 : List String) (bs : Nat)
    (s : BState α) : Prop :=
  s.btype ∈ TB.BATCHING_TYPES ∧
  s.batch_size = bs ∧
  s.keys = keys0 ∧
  (∀ k ∈ keys0, (dGet s.data_TR k).length = s.data_TR_len) ∧
  (∀ i ∈ s.ixmap, i < s.data_TR_len)

theorem TB_getNext_inv {α : Type} [Inhabited α] (loader : Nat → Chunk α)
    (keys0 : List String) (bs : Nat)
    (hk0 : keys0 ≠ [])
    (hax : ∀ i, ∀ k ∈ keys0, (dGet (loader i).data k).length =
      (dGet (loader i).data (keys0.headD "")).length)
    (hbig : ∀ i, bs ≤ (dGet (loader i).data (keys0.headD "")).length)
    (s : BState α) (hInv : TBInv keys0 bs s) :
    ∃ t, getNextChunkWith TB.mkIxmap loader s = some t ∧ TBInv keys0 bs t ∧
      t.ixmap_pointer = 0 ∧ bs ≤ t.ixmap.length := by
  obtain ⟨hbt, hbs, hkeys, hdata, hix⟩ := hInv
  have hkne : s.keys ≠ [] := by
    rw [hkeys]
    exact hk0
  have hhead : s.keys.headD "" = keys0.headD "" := by
    rw [hkeys]
  obtain ⟨pr, hpr, hprlen, hprmem⟩ := TB_mkIxmap_total s.btype hbt
    ((dGet (loader s.chunk_counter).data (s.keys.headD "")).length)
    s.batch_size s.rng
  by_cases hl : s.ixmap.drop s.ixmap_pointer = []
  · have hnext := getNext_no_leftover TB.mkIxmap loader s pr.1 pr.2 hkne hl
      (by rw [hpr])
    refine ⟨_, hnext, ⟨hbt, hbs, hkeys, ?_, ?_⟩, rfl, ?_⟩
    · intro k hk
      show (dGet (loader s.chunk_counter).data k).length = _
      rw [hax s.chunk_counter k hk, hhead]
    · intro i hi
      show i < (dGet (loader s.chunk_counter).data (s.keys.headD "")).length
      exact hprmem i hi
    · show bs ≤ pr.1.length
      rw [hprlen, hhead, ← hbs]
      rw [hbs]
      exact hbig s.chunk_counter
  · cases harr : (loader s.chunk_counter).isArr with
    | true =>
      have hnext := getNext_leftover_arr TB.mkIxmap loader s pr.1 pr.2 hkne hl harr
        (by rw [hpr])
      refine ⟨_, hnext, ⟨hbt, hbs, hkeys, ?_, ?_⟩, rfl, ?_⟩
      · intro k hk
        show (dGet (s.keys.map (fun k =>
            (k, fancyIndex (dGet s.data_TR k) (s.ixmap.drop s.ixmap_pointer) ++
              dGet (loader s.chunk_counter).data k))) k).length = _
        rw [dGet_map_self s.keys _ k (by rw [hkeys]; exact hk)]
        rw [dGet_map_self s.keys _ (s.keys.headD "") (by
          rw [hkeys]
          exact headD_mem_of_ne_nil keys0 hk0)]
        rw [List.length_append, List.length_append, fancyIndex_length, fancyIndex_length]
        rw [hax s.chunk_counter k hk, hhead]
      · intro i hi
        show i < (dGet (s.keys.map (fun k =>
            (k, fancyIndex (dGet s.data_TR k) (s.ixmap.drop s.ixmap_pointer) ++
              dGet (loader s.chunk_counter).data k))) (s.keys.headD "")).length
        rw [dGet_map_self s.keys _ (s.keys.headD "") (by
          rw [hkeys]
          exact headD_mem_of_ne_nil keys0 hk0)]
        rw [List.length_append, fancyIndex_length]
        rcases List.mem_append.mp hi with hi | hi
        · have := List.mem_range.mp hi
          omega
        · obtain ⟨a, ha, rfl⟩ := List.mem_map.mp hi
          have := hprmem a ha
          omega
      · show bs ≤ (List.range (s.ixmap.drop s.ixmap_pointer).length ++
          pr.1.map (· + (s.ixmap.drop s.ixmap_pointer).length)).length
        rw [List.length_append, List.length_range, List.length_map, hprlen, hhead]
        have := hbig s.chunk_counter
        omega
    | false =>
      have hnext := getNext_leftover_notArr TB.mkIxmap loader s pr.1 pr.2 hkne harr
        (by rw [hpr])
      refine ⟨_, hnext, ⟨hbt, hbs, hkeys, ?_, ?_⟩, rfl, ?_⟩
      · intro k hk
        show (dGet (loader s.chunk_counter).data k).length = _
        rw [hax s.chunk_counter k hk, hhead]
      · intro i hi
        show i < (dGet (loader s.chunk_counter).data (s.keys.headD "")).length
        exact hprmem i hi
      · show bs ≤ pr.1.length
        rw [hprlen, hhead]
        exact hbig s.chunk_counter

theorem TB_get_batch_inv {α : Type} [Inhabited α] (loader : Nat → Chunk α)
    (keys0 : List String) (bs : Nat)
    (hk0 : keys0 ≠ [])
    (hax : ∀ i, ∀ k ∈ keys0, (dGet (loader i).data k).length =
      (dGet (loader i).data (keys0.headD "")).length)
    (hbig : ∀ i, bs ≤ (dGet (loader i).data (keys0.headD "")).length)
    (s : BState α) (hInv : TBInv keys0 bs s) :
    ∃ (b : Dict (List α)) (t : BState α),
      TB.get_batch loader s = some (b, t) ∧ TBInv keys0 bs t ∧
      dictKeys b = keys0 ∧ (∀ k ∈ keys0, (dGet b k).length = bs) := by
  obtain ⟨hbt, hbs, hkeys, hdata, hix⟩ := hInv
  by_cases hrefill : s.ixmap_pointer + s.batch_size ≤ s.ixmap.length
  · have hgb := get_batch_no_refill TB.mkIxmap loader s hrefill
    refine ⟨_, _, hgb, ⟨hbt, hbs, hkeys, hdata, hix⟩, ?_, ?_⟩
    · rw [dictKeys_map_self]
      exact hkeys
    · intro k hk
      rw [dGet_map_self s.keys _ k (by rw [hkeys]; exact hk)]
      rw [fancyIndex_length, pySlice_length]
      omega
  · have hInv1 : TBInv keys0 bs { s with
        rng := default_rng s.seed_counter, seed_counter := s.seed_counter + 1 } :=
      ⟨hbt, hbs, hkeys, hdata, hix⟩
    obtain ⟨t0, hnext, hInvT, hptr0, hlen0⟩ := TB_getNext_inv loader keys0 bs
      hk0 hax hbig _ hInv1
    have hgb := get_batch_refill TB.mkIxmap loader s t0 (by omega) hnext
    obtain ⟨hbt0, hbs0, hkeys0, hdata0, hix0⟩ := hInvT
    refine ⟨_, _, hgb, ⟨hbt0, hbs0, hkeys0, hdata0, hix0⟩, ?_, ?_⟩
    · rw [dictKeys_map_self]
      exact hkeys0
    · intro k hk
      rw [dGet_map_self t0.keys _ k (by rw [hkeys0]; exact hk)]
      rw [fancyIndex_length, pySlice_length]
      omega

theorem getNext_init {α : Type} [Inhabited α]
    (mkIx : String → Nat → Nat → Rng → Option (List Nat × Rng))
    (loader : Nat → Chunk α) (s : BState α) (P : List Nat) (r2 : Rng)
    (hkeys : s.keys = []) (hixmap : s.ixmap = [])
    (hmk : mkIx s.btype ((dGet (loader s.chunk_counter).data
      ((sortKeys (dictKeys (loader s.chunk_counter).data)).headD "")).length)
      s.batch_size s.rng = some (P, r2)) :
    getNextChunkWith mkIx loader s = some { s with
      keys := sortKeys (dictKeys (loader s.chunk_counter).data), rng := r2,
      ixmap := P, ixmap_pointer := 0,
      data_TR := (loader s.chunk_counter).data,
      data_TR_len := (dGet (loader s.chunk_counter).data
        ((sortKeys (dictKeys (loader s.chunk_counter).data)).headD "")).length,
      chunk_counter := s.chunk_counter + 1 } := by
  have hne : s.keys.isEmpty = true := by
    simp [List.isEmpty_iff, hkeys]
  have hl : s.ixmap.drop s.ixmap_pointer = [] := by
    rw [hixmap]
    exact List.drop_nil
  simp only [getNextChunkWith, hne, if_true, hmk, hl, List.length_nil, ne_eq,
    not_true_eq_false, false_and, if_false]

theorem TB_mk_inv {α : Type} [Inhabited α] (loader : Nat → Chunk α)
    (keys0 : List String) (bs : Nat)
    (hkeys0 : keys0 = sortKeys (dictKeys (loader 0).data))
    (ts : TSInput α) (mul : Nat) (btype : String) (seed : Nat) (s0 : BState α)
    (hax : ∀ i, ∀ k ∈ keys0, (dGet (loader i).data k).length =
      (dGet (loader i).data (keys0.headD "")).length)
    (hmk : TB.mk loader ts bs mul btype seed = .ok s0) :
    TBInv keys0 bs s0 := by
  simp only [TB.mk, mkWith] at hmk
  split at hmk
  · cases hmk
  · rename_i hbt
    have hbt' : btype ∈ TB.BATCHING_TYPES := not_not.mp hbt
    obtain ⟨pr, hpr, hprlen, hprmem⟩ := TB_mkIxmap_total btype hbt'
      ((dGet (loader 0).data ((sortKeys (dictKeys (loader 0).data)).headD "")).length)
      bs (default_rng seed)
    rw [getNext_init TB.mkIxmap loader _ pr.1 pr.2 rfl rfl (by
      show TB.mkIxmap btype
        ((dGet (loader 0).data
          ((sortKeys (dictKeys (loader 0).data)).headD "")).length)
        bs (default_rng seed) = some (pr.1, pr.2)
      rw [hpr])] at hmk
    cases hmk
    refine ⟨hbt', rfl, hkeys0.symm, ?_, ?_⟩
    · intro k hk
      show (dGet (loader 0).data k).length = _
      rw [hax 0 k hk, ← hkeys0]
    · intro i hi
      show i < (dGet (loader 0).data
        ((sortKeys (dictKeys (loader 0).data)).headD "")).length
      exact hprmem i hi

/-- C8: for a loader whose chunks all carry the key set of the first
chunk with a uniform axis length of at least `batch_size`, every
`get_batch()` call on every reachable state succeeds and returns a dict
whose keys are exactly the (sorted) axis names and whose values all have
length exactly `batch_size`. -/
theorem C8_batch_shape {α : Type} [Inhabited α] (loader : Nat → Chunk α)
    (keys0 : List String) (bs mul : Nat) (ts : TSInput α) (btype : String)
    (seed : Nat) (s0 : BState α)
    (hkeys0 : keys0 = sortKeys (dictKeys (loader 0).data))
    (hk0 : keys0 ≠ [])
    (hax : ∀ i, ∀ k ∈ keys0, (dGet (loader i).data k).length =
      (dGet (loader i).data (keys0.headD "")).length)
    (hbig : ∀ i, bs ≤ (dGet (loader i).data (keys0.headD "")).length)
    (hmk : TB.mk loader ts bs mul btype seed = .ok s0) :
    ∀ n : Nat, ∃ (s : BState α) (b : Dict (List α)) (t : BState α),
      pullState TB.mkIxmap loader s0 n = some s ∧
      TB.get_batch loader s = some (b, t) ∧
      dictKeys b = keys0 ∧ (∀ k ∈ keys0, (dGet b k).length = bs) := by
  have hInv0 : TBInv keys0 bs s0 := TB_mk_inv loader keys0 bs hkeys0 ts mul btype seed s0
    hax hmk
  have hreach : ∀ n : Nat, ∃ s : BState α,
      pullState TB.mkIxmap loader s0 n = some s ∧ TBInv keys0 bs s := by
    intro n
    induction n with
    | zero => exact ⟨s0, rfl, hInv0⟩
    | succ n ih =>
      obtain ⟨s, hps, hInv⟩ := ih
      obtain ⟨b, t, hgb, hInvT, _, _⟩ := TB_get_batch_inv loader keys0 bs hk0 hax hbig
        s hInv
      refine ⟨t, ?_, hInvT⟩
      unfold pullState
      rw [hps]
      show Option.map Prod.snd (TB.get_batch loader s) = some t
      rw [hgb]
      rfl
  intro n
  obtain ⟨s, hps, hInv⟩ := hreach n
  obtain ⟨b, t, hgb, _, hkeysb, hlenb⟩ := TB_get_batch_inv loader keys0 bs hk0 hax hbig
    s hInv
  exact ⟨s, b, t, hps, hgb, hkeysb, hlenb⟩

theorem C8_batch_shape_witness :
    (["x", "y"] = sortKeys (dictKeys (exLoader 0).data) ∧
     (["x", "y"] : List String) ≠ [] ∧
     (∀ i, ∀ k ∈ (["x", "y"] : List String), (dGet (exLoader i).data k).length =
       (dGet (exLoader i).data ((["x", "y"] : List String).headD "")).length) ∧
     (∀ i, 2 ≤ (dGet (exLoader i).data ((["x", "y"] : List String).headD "")).length) ∧
     TB.mk exLoader .null 2 2 "random" 123 = .ok exInit) ∧
    (∀ n : Nat, ∃ (s : BState Nat) (b : Dict (List Nat)) (t : BState Nat),
      pullState TB.mkIxmap exLoader exInit n = some s ∧
      TB.get_batch exLoader s = some (b, t) ∧
      dictKeys b = ["x", "y"] ∧ (∀ k ∈ (["x", "y"] : List String), (dGet b k).length = 2)) :=
  ⟨⟨rfl, by decide,
    fun i => by
      show ∀ k ∈ (["x", "y"] : List String), (dGet exData k).length =
        (dGet exData ((["x", "y"] : List String).headD "")).length
      decide,
    fun i => by
      show 2 ≤ (dGet exData ((["x", "y"] : List String).headD "")).length
      decide, rfl⟩,
    C8_batch_shape exLoader ["x", "y"] 2 2 .null "random" 123 exInit rfl (by decide)
      (fun i => by
        show ∀ k ∈ (["x", "y"] : List String), (dGet exData k).length =
          (dGet exData ((["x", "y"] : List String).headD "")).length
        decide)
      (fun i => by
        show 2 ≤ (dGet exData ((["x", "y"] : List String).headD "")).length
        decide) rfl⟩

end Torchness
